import Mathlib

/-!
Shallow embedding of the web-request capture ledger in
src/src/background.ts (the webRequest listener block, lines 379-581):
the RequestRecord shape, the four lifecycle handlers
(onBeforeRequest, onBeforeSendHeaders, onCompleted, onErrorOccurred),
the CLEAR_WEB_REQUESTS message handler, and the run of an arbitrary
sequence of such events from the initial empty state.

Modelling conventions:
- JS numbers that matter here are integers; a value that can be NaN
  (the result of parseInt) is modelled by the JSNum type.
- Optional JS object fields are Option.
- A JS Map<string, number> and plain-object header maps are modelled as
  association lists preserving JS insertion-order/overwrite semantics.
- Date.now() is passed in explicitly as the `now` argument of each
  event; the two Date.now() calls inside the onBeforeRequest handler
  (one for requestStartTimes, one for the record timestamp) are
  modelled as the same instant, as both run synchronously in one
  event-loop turn.
-/

/-- A JS number that is either NaN or an integer (the possible results
of parseInt on a header value). -/
inductive JSNum
  | nan
  | int (n : Int)
deriving DecidableEq

/-- Decimal model of the JS global parseInt applied to a string with no
radix argument: skip leading whitespace, an optional sign, then the
longest run of decimal digits; NaN if that run is empty. (The 0x-prefix
hexadecimal form of parseInt is not modelled; no claim involves it.) -/
def jsParseInt (str : String) : JSNum :=
  let cs := str.toList.dropWhile (fun c => c == ' ' || c == '\t' || c == '\n' || c == '\r')
  let signAndRest : Int × List Char :=
    match cs with
    | '-' :: rest => (-1, rest)
    | '+' :: rest => (1, rest)
    | _ => (1, cs)
  let ds := signAndRest.2.takeWhile Char.isDigit
  if ds.isEmpty then JSNum.nan
  else JSNum.int (signAndRest.1 * Int.ofNat (ds.foldl (fun acc c => acc * 10 + (c.toNat - 48)) 0))

/-- ASCII model of the lowercasing JS String.prototype.toLowerCase
performs on a header name. -/
def asciiLower (c : Char) : Char :=
  if 'A' ≤ c && c ≤ 'Z' then Char.ofNat (c.toNat + 32) else c

/-- Lowercase a string character-wise (header names are ASCII). -/
def strToLower (s : String) : String :=
  String.mk (s.toList.map asciiLower)

/-- JS String.prototype.split(" "): split at every single space; "" has
one empty field, adjacent spaces yield empty fields. -/
def splitOnSpace (cur : List Char) : List Char → List String
  | [] => [String.mk cur.reverse]
  | c :: cs =>
    if c = ' ' then String.mk cur.reverse :: splitOnSpace [] cs
    else splitOnSpace (c :: cur) cs

/-- JS Array.prototype.join(" "). -/
def joinSpace : List String → String
  | [] => ""
  | [s] => s
  | s :: rest => s ++ " " ++ joinSpace rest

/-- One entry of details.requestHeaders / details.responseHeaders: an
HttpHeader with a name and an optional string value (the code guards
every access with `header.value || ...`). -/
structure Header where
  name : String
  value : Option String
deriving DecidableEq

/-- One chunk of details.requestBody.raw. The code decodes chunk.bytes
with a TextDecoder inside a try/catch; a chunk whose bytes fail to
decode is modelled as `bytes none`. -/
inductive BodyChunk
  | bytes (text : Option String)
deriving DecidableEq

/-- The details.requestBody object: an optional raw chunk list and an
optional formData object. The formData branch of the handler stores
JSON.stringify(details.requestBody.formData, null, 2); that serialized
string is carried here directly. -/
structure RequestBodyInfo where
  raw : Option (List BodyChunk)
  formData : Option String
deriving DecidableEq

/-- The element type of the webRequests array (background.ts lines
380-397). Optional fields are Option; `size` can hold NaN (parseInt of
a non-numeric content-length), hence Option JSNum. -/
structure RequestRecord where
  id : String
  url : String
  method : String
  status : Option Int := none
  timestamp : Int
  type : String
  initiator : Option String := none
  size : Option JSNum := none
  duration : Option Int := none
  requestHeaders : Option (List (String × String)) := none
  responseHeaders : Option (List (String × String)) := none
  requestBody : Option String := none
  responseBody : Option String := none
  statusText : Option String := none
  fromCache : Option Bool := none
  error : Option String := none
deriving DecidableEq

/-- The mutable state of the background script: the webRequests array
(newest first) and the requestStartTimes Map. -/
structure LedgerState where
  webRequests : List RequestRecord
  requestStartTimes : List (String × Int)
deriving DecidableEq

/-- Map.set: overwrite the value of an existing key in place, else
append (JS Map preserves insertion order). -/
def mapSet (m : List (String × Int)) (k : String) (v : Int) : List (String × Int) :=
  if m.any (fun p => p.1 == k) then m.map (fun p => if p.1 == k then (k, v) else p)
  else m ++ [(k, v)]

/-- Map.get: the value of the first (unique) entry with the key. -/
def mapGet (m : List (String × Int)) (k : String) : Option Int :=
  (m.find? (fun p => p.1 == k)).map (fun p => p.2)

/-- Map.delete: remove the entry with the key. -/
def mapDelete (m : List (String × Int)) (k : String) : List (String × Int) :=
  m.filter (fun p => p.1 != k)

/-- Assigning obj[k] = v on a plain JS object: overwrite in place if the
key exists, else append. -/
def objSet (m : List (String × String)) (k v : String) : List (String × String) :=
  if m.any (fun p => p.1 == k) then m.map (fun p => if p.1 == k then (k, v) else p)
  else m ++ [(k, v)]

/-- The headers object built by `details.xxxHeaders?.forEach((header) =>
headers[header.name] = header.value || "")`. -/
def headersToObj (hs : List Header) : List (String × String) :=
  hs.foldl (fun m h => objSet m h.name (h.value.getD "")) []

/-- The findIndex-then-assign pattern used by the three update
handlers: replace the first record satisfying p with f of it and leave
everything else alone (no-op when no record matches, requestIndex =
-1). -/
def updateFirst (p : RequestRecord → Bool) (f : RequestRecord → RequestRecord) :
    List RequestRecord → List RequestRecord
  | [] => []
  | r :: rs => if p r then f r :: rs else r :: updateFirst p f rs

/-- The index JS findIndex would return, as an Option (none for -1). -/
def firstIdx (p : RequestRecord → Bool) : List RequestRecord → Option Nat
  | [] => none
  | r :: rs => if p r then some 0 else (firstIdx p rs).map (fun i => i + 1)

/-- The requestBody string computed by the onBeforeRequest handler from
details.requestBody.raw: each chunk is decoded and the results joined;
if decoding throws the catch block substitutes the sentinel. -/
def decodeChunks (chunks : List BodyChunk) : String :=
  if chunks.any (fun c => match c with | .bytes none => true | _ => false)
  then "[Binary data]"
  else String.join (chunks.map (fun c => match c with | .bytes t => t.getD ""))

/-- The full requestBody computation of onBeforeRequest: starts as "",
set from .raw if present, else from .formData if present. -/
def decodeRequestBody : Option RequestBodyInfo → String
  | none => ""
  | some b =>
    match b.raw with
    | some chunks => decodeChunks chunks
    | none =>
      match b.formData with
      | some fd => fd
      | none => ""

/-- The record object constructed by onBeforeRequest;
`requestBody || undefined` turns the empty string into an absent
field. -/
def mkRequest (requestId url method : String) (now : Int) (type : String)
    (initiatorUrl : Option String) (body : Option RequestBodyInfo) : RequestRecord :=
  { id := requestId
    url := url
    method := method
    timestamp := now
    type := type
    initiator := initiatorUrl
    requestBody :=
      if decodeRequestBody body = "" then none else some (decodeRequestBody body) }

/-- The onBeforeRequest listener (background.ts lines 407-452): record
the start time, build the record, unshift it, and slice to 500 records
when the length exceeds 500. -/
def onBeforeRequest (s : LedgerState) (requestId url method : String) (type : String)
    (initiatorUrl : Option String) (body : Option RequestBodyInfo) (now : Int) : LedgerState :=
  let requestStartTimes := mapSet s.requestStartTimes requestId now
  let webRequests := mkRequest requestId url method now type initiatorUrl body :: s.webRequests
  { webRequests := if webRequests.length > 500 then webRequests.take 500 else webRequests
    requestStartTimes := requestStartTimes }

/-- The onBeforeSendHeaders listener (lines 455-473): find the record
by id and replace its requestHeaders with the headers object. -/
def onBeforeSendHeaders (s : LedgerState) (requestId : String)
    (requestHeaders : Option (List Header)) : LedgerState :=
  let webRequests :=
    updateFirst (fun r => r.id == requestId)
      (fun r => { r with requestHeaders := some (headersToObj (requestHeaders.getD [])) })
      s.webRequests
  { s with webRequests := webRequests }

/-- The duration expression `startTime ? Date.now() - startTime :
undefined` shared by onCompleted and onErrorOccurred: JS truthiness
makes a stored start time of 0 behave like a missing entry. -/
def computeDuration (startTime : Option Int) (now : Int) : Option Int :=
  match startTime with
  | some t => if t = 0 then none else some (now - t)
  | none => none

/-- The statusText expression
`details.statusLine?.split(" ").slice(2).join(" ") || ""`. -/
def statusTextOf (statusLine : Option String) : String :=
  match statusLine with
  | none => ""
  | some l => joinSpace ((splitOnSpace [] l.toList).drop 2)

/-- The expression `contentLength.value || "0"`. -/
def contentLengthValue (v : Option String) : String :=
  match v with
  | none => "0"
  | some v => if v = "" then "0" else v

/-- The onCompleted listener (lines 476-511): compute the duration,
delete the correlation entry, then find the record by id and set
status, statusText, duration, size (parseInt of the case-insensitively
matched content-length header, absent if no such header),
responseHeaders and fromCache. -/
def onCompleted (s : LedgerState) (requestId : String) (statusCode : Int)
    (statusLine : Option String) (responseHeaders : Option (List Header))
    (fromCache : Option Bool) (now : Int) : LedgerState :=
  let duration := computeDuration (mapGet s.requestStartTimes requestId) now
  let requestStartTimes := mapDelete s.requestStartTimes requestId
  let webRequests :=
    updateFirst (fun r => r.id == requestId)
      (fun r =>
        let contentLength :=
          (responseHeaders.getD []).find? (fun h => strToLower h.name == "content-length")
        { r with
          status := some statusCode
          statusText := some (statusTextOf statusLine)
          duration := duration
          size :=
            match contentLength with
            | some h => some (jsParseInt (contentLengthValue h.value))
            | none => none
          responseHeaders := some (headersToObj (responseHeaders.getD []))
          fromCache := some (fromCache.getD false) })
      s.webRequests
  { webRequests := webRequests, requestStartTimes := requestStartTimes }

/-- The onErrorOccurred listener (lines 514-535): compute the duration,
delete the correlation entry, then find the record by id and set status
= 0, statusText = "Error", duration and error. It does not touch
responseHeaders, size or fromCache. -/
def onErrorOccurred (s : LedgerState) (requestId : String) (error : String)
    (now : Int) : LedgerState :=
  let duration := computeDuration (mapGet s.requestStartTimes requestId) now
  let requestStartTimes := mapDelete s.requestStartTimes requestId
  let webRequests :=
    updateFirst (fun r => r.id == requestId)
      (fun r => { r with
          status := some 0
          statusText := some "Error"
          duration := duration
          error := some error })
      s.webRequests
  { webRequests := webRequests, requestStartTimes := requestStartTimes }

/-- The CLEAR_WEB_REQUESTS message handler (lines 558-564): webRequests
= [] and requestStartTimes.clear(). -/
def clearWebRequests (_ : LedgerState) : LedgerState :=
  { webRequests := [], requestStartTimes := [] }

/-- The GET_WEB_REQUESTS message handler (lines 552-556) responds with
the current webRequests array. (The code passes the live array object
to sendResponse; any copying happens in the platform message
transport, outside this model.) -/
def getWebRequests (s : LedgerState) : List RequestRecord :=
  s.webRequests

/-- One delivered lifecycle or message event, carrying the fields of
the details object that the corresponding handler reads. -/
inductive Event
  | beforeRequest (requestId url method : String) (type : String)
      (initiatorUrl : Option String) (body : Option RequestBodyInfo) (now : Int)
  | beforeSendHeaders (requestId : String) (requestHeaders : Option (List Header))
  | completed (requestId : String) (statusCode : Int) (statusLine : Option String)
      (responseHeaders : Option (List Header)) (fromCache : Option Bool) (now : Int)
  | errorOccurred (requestId : String) (error : String) (now : Int)
  | clear
deriving DecidableEq

/-- Dispatch one event to its handler. -/
def step (s : LedgerState) : Event → LedgerState
  | .beforeRequest id url m ty ini body now => onBeforeRequest s id url m ty ini body now
  | .beforeSendHeaders id hs => onBeforeSendHeaders s id hs
  | .completed id code line hs fc now => onCompleted s id code line hs fc now
  | .errorOccurred id e now => onErrorOccurred s id e now
  | .clear => clearWebRequests s

/-- The state at process start: empty array, empty Map. -/
def initialState : LedgerState :=
  { webRequests := [], requestStartTimes := [] }

/-- Process a sequence of events from an arbitrary state. -/
def runFrom (s : LedgerState) (evs : List Event) : LedgerState :=
  evs.foldl step s

/-- Process a sequence of events from the initial state. -/
def run (evs : List Event) : LedgerState :=
  runFrom initialState evs

/-! Helper lemmas about updateFirst, firstIdx, the map model and take. -/

theorem updateFirst_length (p : RequestRecord → Bool) (f : RequestRecord → RequestRecord) :
    ∀ l : List RequestRecord, (updateFirst p f l).length = l.length
  | [] => rfl
  | r :: rs => by
    simp only [updateFirst]
    split
    · simp
    · simp [updateFirst_length p f rs]

theorem updateFirst_eq_self (p : RequestRecord → Bool) (f : RequestRecord → RequestRecord) :
    ∀ l : List RequestRecord, (∀ r ∈ l, p r = false) → updateFirst p f l = l
  | [], _ => rfl
  | r :: rs, h => by
    have hr := h r (List.mem_cons_self r rs)
    simp only [updateFirst, hr]
    simp [updateFirst_eq_self p f rs (fun x hx => h x (List.mem_cons_of_mem r hx))]

theorem updateFirst_mem (p : RequestRecord → Bool) (f : RequestRecord → RequestRecord) :
    ∀ (l : List RequestRecord) (r' : RequestRecord), r' ∈ updateFirst p f l →
      r' ∈ l ∨ ∃ r, r ∈ l ∧ p r = true ∧ r' = f r
  | [], r', h => absurd h (List.not_mem_nil r')
  | r :: rs, r', h => by
    by_cases hp : p r = true
    · rw [updateFirst, if_pos hp] at h
      rcases List.mem_cons.mp h with h | h
      · exact Or.inr ⟨r, List.mem_cons_self r rs, hp, h⟩
      · exact Or.inl (List.mem_cons_of_mem r h)
    · rw [updateFirst, if_neg hp] at h
      rcases List.mem_cons.mp h with h | h
      · exact Or.inl (h ▸ List.mem_cons_self r rs)
      · rcases updateFirst_mem p f rs r' h with h | ⟨r0, hr0, hpr0, hfr0⟩
        · exact Or.inl (List.mem_cons_of_mem r h)
        · exact Or.inr ⟨r0, List.mem_cons_of_mem r hr0, hpr0, hfr0⟩

theorem firstIdx_spec (p : RequestRecord → Bool) :
    ∀ (l : List RequestRecord) (i : Nat), firstIdx p l = some i →
      (∃ r, l[i]? = some r ∧ p r = true) ∧
      (∀ j, j < i → ∀ r, l[j]? = some r → p r = false)
  | [], i, h => by simp [firstIdx] at h
  | r :: rs, i, h => by
    by_cases hp : p r = true
    · rw [firstIdx, if_pos hp] at h
      obtain rfl : (0 : Nat) = i := Option.some.inj h
      exact ⟨⟨r, by simp, hp⟩, fun j hj => absurd hj (Nat.not_lt_zero j)⟩
    · rw [firstIdx, if_neg hp] at h
      cases hfi : firstIdx p rs with
      | none => rw [hfi] at h; simp at h
      | some k =>
        rw [hfi] at h
        simp only [Option.map_some'] at h
        obtain rfl : k + 1 = i := Option.some.inj h
        obtain ⟨⟨r0, hr0, hpr0⟩, hleast⟩ := firstIdx_spec p rs k hfi
        refine ⟨⟨r0, ?_, hpr0⟩, ?_⟩
        · simpa [List.getElem?_cons_succ] using hr0
        · intro j hj r1 hr1
          cases j with
          | zero =>
            simp only [List.getElem?_cons_zero] at hr1
            obtain rfl : r = r1 := Option.some.inj hr1
            exact Bool.eq_false_iff.mpr hp
          | succ j =>
            exact hleast j (Nat.lt_of_succ_lt_succ hj) r1
              (by simpa [List.getElem?_cons_succ] using hr1)

theorem updateFirst_getElem? (p : RequestRecord → Bool) (f : RequestRecord → RequestRecord) :
    ∀ (l : List RequestRecord) (i : Nat), firstIdx p l = some i →
      (updateFirst p f l)[i]? = (l[i]?).map f ∧
      (∀ j, j ≠ i → (updateFirst p f l)[j]? = l[j]?)
  | [], i, h => by simp [firstIdx] at h
  | r :: rs, i, h => by
    by_cases hp : p r = true
    · rw [firstIdx, if_pos hp] at h
      obtain rfl : (0 : Nat) = i := Option.some.inj h
      rw [updateFirst, if_pos hp]
      refine ⟨by simp, ?_⟩
      intro j hj
      cases j with
      | zero => exact absurd rfl hj
      | succ j => simp [List.getElem?_cons_succ]
    · rw [firstIdx, if_neg hp] at h
      cases hfi : firstIdx p rs with
      | none => rw [hfi] at h; simp at h
      | some k =>
        rw [hfi] at h
        simp only [Option.map_some'] at h
        obtain rfl : k + 1 = i := Option.some.inj h
        obtain ⟨ih1, ih2⟩ := updateFirst_getElem? p f rs k hfi
        rw [updateFirst, if_neg hp]
        refine ⟨by simpa [List.getElem?_cons_succ] using ih1, ?_⟩
        intro j hj
        cases j with
        | zero => simp
        | succ j =>
          have : j ≠ k := fun hc => hj (by rw [hc])
          simpa [List.getElem?_cons_succ] using ih2 j this

theorem mapGet_mapDelete (k : String) :
    ∀ m : List (String × Int), mapGet (mapDelete m k) k = none := by
  intro m
  induction m with
  | nil => rfl
  | cons a m ih =>
    by_cases h : a.1 = k
    · have hb : (a.1 != k) = false := by simp [bne, h]
      simp only [mapDelete, List.filter_cons, hb]
      exact ih
    · have hb : (a.1 != k) = true := by simp [bne, h]
      have hbeq : (a.1 == k) = false := by simp [h]
      simp only [mapDelete, List.filter_cons, hb, if_pos rfl]
      simp only [mapGet, List.find?, hbeq]
      exact ih

theorem take_append_take (n : Nat) (xs ys : List RequestRecord) :
    (xs ++ ys.take n).take n = (xs ++ ys).take n := by
  rw [List.take_append_eq_append_take, List.take_append_eq_append_take, List.take_take,
    Nat.min_eq_left (Nat.sub_le n xs.length)]

theorem head?_take_cons (n : Nat) (r : RequestRecord) (l : List RequestRecord) (h : 0 < n) :
    ((r :: l).take n).head? = some r := by
  cases n with
  | zero => exact absurd h (by simp)
  | succ n => simp [List.take_succ_cons]

theorem onBeforeRequest_webRequests (s : LedgerState) (requestId url method type : String)
    (initiatorUrl : Option String) (body : Option RequestBodyInfo) (now : Int) :
    (onBeforeRequest s requestId url method type initiatorUrl body now).webRequests
      = (mkRequest requestId url method now type initiatorUrl body :: s.webRequests).take 500 := by
  simp only [onBeforeRequest]
  split
  · rfl
  · next h => rw [List.take_of_length_le (Nat.le_of_not_lt h)]

/-! Capacity invariant (C1). -/

theorem step_length_le (s : LedgerState) (e : Event) (h : s.webRequests.length ≤ 500) :
    (step s e).webRequests.length ≤ 500 := by
  cases e with
  | beforeRequest id url m ty ini body now =>
    rw [step, onBeforeRequest_webRequests]
    calc ((mkRequest id url m now ty ini body :: s.webRequests).take 500).length
        ≤ 500 := by rw [List.length_take]; exact Nat.min_le_left ..
  | beforeSendHeaders id hs =>
    simpa [step, onBeforeSendHeaders, updateFirst_length] using h
  | completed id code line hs fc now =>
    simpa [step, onCompleted, updateFirst_length] using h
  | errorOccurred id e now =>
    simpa [step, onErrorOccurred, updateFirst_length] using h
  | clear => simp [step, clearWebRequests]

theorem runFrom_length_le :
    ∀ (evs : List Event) (s : LedgerState), s.webRequests.length ≤ 500 →
      (runFrom s evs).webRequests.length ≤ 500
  | [], _, h => h
  | e :: evs, s, h => runFrom_length_le evs (step s e) (step_length_le s e h)

/-- C1: after any sequence of lifecycle events (in particular after
every onBeforeRequest call), the webRequests ledger holds at most
MAX_RECORDS = 500 records. -/
theorem spec_c1_capacity_bound (evs : List Event) :
    (run evs).webRequests.length ≤ 500 :=
  runFrom_length_le evs initialState (by simp [initialState])

/-! Eviction order (C2). -/

/-- The argument bundle of one onBeforeRequest call, used to state how
a pure sequence of request-start events shapes the ledger. -/
structure StartArgs where
  requestId : String
  url : String
  method : String
  type : String
  initiatorUrl : Option String
  body : Option RequestBodyInfo
  now : Int
deriving DecidableEq

/-- The beforeRequest event of a StartArgs bundle. -/
def startEvent (a : StartArgs) : Event :=
  Event.beforeRequest a.requestId a.url a.method a.type a.initiatorUrl a.body a.now

/-- The record a StartArgs bundle inserts. -/
def recordOf (a : StartArgs) : RequestRecord :=
  mkRequest a.requestId a.url a.method a.now a.type a.initiatorUrl a.body

theorem runFrom_starts (args : List StartArgs) :
    ∀ s : LedgerState, s.webRequests.length ≤ 500 →
      (runFrom s (args.map startEvent)).webRequests
        = ((args.map recordOf).reverse ++ s.webRequests).take 500 := by
  induction args with
  | nil =>
    intro s h
    simpa [runFrom] using (List.take_of_length_le h).symm
  | cons a args ih =>
    intro s h
    have hstep : runFrom s ((a :: args).map startEvent)
        = runFrom (step s (startEvent a)) (args.map startEvent) := rfl
    have hweb : (step s (startEvent a)).webRequests
        = (recordOf a :: s.webRequests).take 500 := by
      simpa [step, startEvent, recordOf] using
        onBeforeRequest_webRequests s a.requestId a.url a.method a.type a.initiatorUrl a.body a.now
    have hlen : (step s (startEvent a)).webRequests.length ≤ 500 := by
      rw [hweb, List.length_take]; exact Nat.min_le_left ..
    rw [hstep, ih (step s (startEvent a)) hlen, hweb, take_append_take]
    simp [List.append_assoc]

/-- C2: the ledger is ordered newest-first by onBeforeRequest delivery
order and eviction is strict FIFO on insertion order. First conjunct:
a start event on an arbitrary state (whatever mixture of completed and
in-flight records it holds) puts the new record at the head and keeps
exactly the 500 newest of the previous records, dropping the
earliest-inserted tail. Second conjunct: a pure sequence of start
events yields exactly the most recent 500 inserted records in reverse
delivery order. -/
theorem spec_c2_eviction_order :
    (∀ (s : LedgerState) (requestId url method type : String)
        (initiatorUrl : Option String) (body : Option RequestBodyInfo) (now : Int),
        (onBeforeRequest s requestId url method type initiatorUrl body now).webRequests
          = (mkRequest requestId url method now type initiatorUrl body :: s.webRequests).take 500)
    ∧ (∀ args : List StartArgs,
        (run (args.map startEvent)).webRequests
          = ((args.map recordOf).reverse).take 500) := by
  constructor
  · exact onBeforeRequest_webRequests
  · intro args
    have h := runFrom_starts args initialState (by simp [initialState])
    simpa [run, initialState] using h

/-! Correlation correctness (C3). -/

/-- C3 (amended): if the correlation table holds t1 for id X, t1 is
nonzero, and a record with id X is in the ledger (first match at index
i), then a completion or error event at time t2 = now sets that
record's duration to now - t1 and removes the correlation entry. The
nonzero side condition is forced by the code: the JS expression
`startTime ? Date.now() - startTime : undefined` treats a stored start
time of 0 as missing. -/
theorem spec_c3_correlation_duration (s : LedgerState) (X : String) (t1 now : Int)
    (statusCode : Int) (statusLine : Option String) (responseHeaders : Option (List Header))
    (fromCache : Option Bool) (errMsg : String) (i : Nat)
    (h1 : mapGet s.requestStartTimes X = some t1) (h2 : t1 ≠ 0)
    (hi : firstIdx (fun r => r.id == X) s.webRequests = some i) :
    ((onCompleted s X statusCode statusLine responseHeaders fromCache now).webRequests[i]?).map
        (fun r => r.duration) = some (some (now - t1))
    ∧ mapGet (onCompleted s X statusCode statusLine responseHeaders fromCache
        now).requestStartTimes X = none
    ∧ ((onErrorOccurred s X errMsg now).webRequests[i]?).map
        (fun r => r.duration) = some (some (now - t1))
    ∧ mapGet (onErrorOccurred s X errMsg now).requestStartTimes X = none := by
  have hd : computeDuration (mapGet s.requestStartTimes X) now = some (now - t1) := by
    rw [h1]; simp [computeDuration, h2]
  obtain ⟨⟨r, hr, hpr⟩, -⟩ := firstIdx_spec (fun r => r.id == X) s.webRequests i hi
  refine ⟨?_, ?_, ?_, ?_⟩
  · have hup := (updateFirst_getElem? (fun r => r.id == X)
      (fun r =>
        let contentLength :=
          (responseHeaders.getD []).find? (fun h => strToLower h.name == "content-length")
        { r with
          status := some statusCode
          statusText := some (statusTextOf statusLine)
          duration := computeDuration (mapGet s.requestStartTimes X) now
          size :=
            match contentLength with
            | some h => some (jsParseInt (contentLengthValue h.value))
            | none => none
          responseHeaders := some (headersToObj (responseHeaders.getD []))
          fromCache := some (fromCache.getD false) })
      s.webRequests i hi).1
    simp only [onCompleted]
    rw [hup, hr]
    simp [hd]
  · simp only [onCompleted]
    exact mapGet_mapDelete X s.requestStartTimes
  · have hup := (updateFirst_getElem? (fun r => r.id == X)
      (fun r => { r with
          status := some 0
          statusText := some "Error"
          duration := computeDuration (mapGet s.requestStartTimes X) now
          error := some errMsg })
      s.webRequests i hi).1
    simp only [onErrorOccurred]
    rw [hup, hr]
    simp [hd]
  · simp only [onErrorOccurred]
    exact mapGet_mapDelete X s.requestStartTimes

/-- C3 witness: start at t1 = 100, completion at t2 = 150 gives
duration 50 and clears the correlation entry. -/
theorem spec_c3_correlation_duration_witness :
    ((onCompleted (onBeforeRequest initialState "X" "https://example.com" "GET" "xhr" none none 100)
        "X" 200 none none none 150).webRequests[0]?).map (fun r => r.duration)
      = some (some 50)
    ∧ mapGet (onCompleted (onBeforeRequest initialState "X" "https://example.com" "GET" "xhr"
        none none 100) "X" 200 none none none 150).requestStartTimes "X" = none := by
  have h := spec_c3_correlation_duration
    (onBeforeRequest initialState "X" "https://example.com" "GET" "xhr" none none 100)
    "X" 100 150 200 none none none "e" 0 (by decide) (by decide) (by decide)
  refine ⟨?_, h.2.1⟩
  have h1 := h.1
  have h50 : (150 : Int) - 100 = 50 := by norm_num
  rw [h50] at h1
  exact h1

/-- C3 counterexample: the claim as stated fails when the recorded
start time t1 is 0. The correlation entry for X holds 0, the record is
in the ledger, a completion arrives at t2 = 50, yet duration is left
absent rather than set to t2 - t1 = 50, because the code tests the
stored start time for JS truthiness rather than presence. -/
theorem spec_c3_correlation_duration_counterexample :
    mapGet (onBeforeRequest initialState "X" "u" "GET" "xhr" none none 0).requestStartTimes "X"
      = some 0
    ∧ firstIdx (fun r => r.id == "X")
        (onBeforeRequest initialState "X" "u" "GET" "xhr" none none 0).webRequests = some 0
    ∧ ((onCompleted (onBeforeRequest initialState "X" "u" "GET" "xhr" none none 0)
        "X" 200 none none none 50).webRequests[0]?).map (fun r => r.duration) = some none
    ∧ ¬ ((onCompleted (onBeforeRequest initialState "X" "u" "GET" "xhr" none none 0)
        "X" 200 none none none 50).webRequests[0]?).map (fun r => r.duration)
          = some (some 50) :=
  ⟨by decide, by decide, by decide, by decide⟩

/-! Orphan no-op (C4). -/

/-- C4: a completion or error event for an id with no matching record
leaves the ledger unchanged and still removes any stale correlation
entry for that id. (Both handlers are total functions here, matching
the code path where findIndex returns -1 and nothing throws.) -/
theorem spec_c4_orphan_noop (s : LedgerState) (X : String) (statusCode : Int)
    (statusLine : Option String) (responseHeaders : Option (List Header))
    (fromCache : Option Bool) (errMsg : String) (now : Int)
    (habsent : ∀ r ∈ s.webRequests, ¬ r.id = X) :
    (onCompleted s X statusCode statusLine responseHeaders fromCache now).webRequests
      = s.webRequests
    ∧ mapGet (onCompleted s X statusCode statusLine responseHeaders fromCache
        now).requestStartTimes X = none
    ∧ (onErrorOccurred s X errMsg now).webRequests = s.webRequests
    ∧ mapGet (onErrorOccurred s X errMsg now).requestStartTimes X = none := by
  have hfalse : ∀ r ∈ s.webRequests, (r.id == X) = false := by
    intro r hr
    simpa using habsent r hr
  refine ⟨?_, ?_, ?_, ?_⟩
  · simp only [onCompleted]
    exact updateFirst_eq_self _ _ s.webRequests hfalse
  · simp only [onCompleted]
    exact mapGet_mapDelete X s.requestStartTimes
  · simp only [onErrorOccurred]
    exact updateFirst_eq_self _ _ s.webRequests hfalse
  · simp only [onErrorOccurred]
    exact mapGet_mapDelete X s.requestStartTimes

/-- A one-record state used to exercise the orphan no-op: a started
request with id A, while terminal events arrive for the unknown id B
(B also has a stale correlation entry to show it is cleared). -/
def orphanExampleState : LedgerState :=
  { webRequests := (onBeforeRequest initialState "A" "u" "GET" "xhr" none none 7).webRequests
    requestStartTimes := [("A", 7), ("B", 3)] }

/-- C4 witness: concrete orphan completion and error events for id B
leave the one-record ledger unchanged and drop the stale entry for B. -/
theorem spec_c4_orphan_noop_witness :
    (onCompleted orphanExampleState "B" 200 none none none 9).webRequests
      = orphanExampleState.webRequests
    ∧ mapGet (onCompleted orphanExampleState "B" 200 none none none 9).requestStartTimes "B"
      = none
    ∧ (onErrorOccurred orphanExampleState "B" "e" 9).webRequests
      = orphanExampleState.webRequests
    ∧ mapGet (onErrorOccurred orphanExampleState "B" "e" 9).requestStartTimes "B" = none :=
  spec_c4_orphan_noop orphanExampleState "B" 200 none none none "e" 9 (by decide)

/-! Size derivation (C5). -/

/-- C5 (amended): on completion of a record (first match at index i),
if no response header matches content-length case-insensitively, size
is left absent; if such a header is found, size is set to parseInt of
its value (with "0" substituted for a missing or empty value) — which
is NaN, not absent, when the value has no leading integer. The claim's
"unparseable value leaves size absent" clause is the part the code
contradicts. -/
theorem spec_c5_size_derivation (s : LedgerState) (X : String) (statusCode : Int)
    (statusLine : Option String) (responseHeaders : Option (List Header))
    (fromCache : Option Bool) (now : Int) (i : Nat)
    (hi : firstIdx (fun r => r.id == X) s.webRequests = some i) :
    ((responseHeaders.getD []).find? (fun h => strToLower h.name == "content-length") = none →
      ((onCompleted s X statusCode statusLine responseHeaders fromCache now).webRequests[i]?).map
        (fun r => r.size) = some none)
    ∧ (∀ h0, (responseHeaders.getD []).find?
        (fun h => strToLower h.name == "content-length") = some h0 →
      ((onCompleted s X statusCode statusLine responseHeaders fromCache now).webRequests[i]?).map
        (fun r => r.size) = some (some (jsParseInt (contentLengthValue h0.value)))) := by
  obtain ⟨⟨r, hr, hpr⟩, -⟩ := firstIdx_spec (fun r => r.id == X) s.webRequests i hi
  have hup := (updateFirst_getElem? (fun r => r.id == X)
    (fun r =>
      let contentLength :=
        (responseHeaders.getD []).find? (fun h => strToLower h.name == "content-length")
      { r with
        status := some statusCode
        statusText := some (statusTextOf statusLine)
        duration := computeDuration (mapGet s.requestStartTimes X) now
        size :=
          match contentLength with
          | some h => some (jsParseInt (contentLengthValue h.value))
          | none => none
        responseHeaders := some (headersToObj (responseHeaders.getD []))
        fromCache := some (fromCache.getD false) })
    s.webRequests i hi).1
  constructor
  · intro hnone
    simp only [onCompleted]
    rw [hup, hr]
    simp [hnone]
  · intro h0 hfound
    simp only [onCompleted]
    rw [hup, hr]
    simp [hfound]

/-- A one-record ledger holding a started request with id X at t =
100, used to exercise the completion size logic. -/
def sizeExampleState : LedgerState :=
  onBeforeRequest initialState "X" "u" "GET" "xhr" none none 100

/-- C5 witness: with no content-length header the size field stays
absent; with content-length 1234 it is set to the integer 1234. -/
theorem spec_c5_size_derivation_witness :
    (((onCompleted sizeExampleState "X" 200 none none none 150).webRequests[0]?).map
      (fun r => r.size) = some none)
    ∧ (((onCompleted sizeExampleState "X" 200 none
          (some [⟨"Content-Length", some "1234"⟩]) none 150).webRequests[0]?).map
      (fun r => r.size) = some (some (JSNum.int 1234))) := by
  constructor
  · exact (spec_c5_size_derivation sizeExampleState "X" 200 none none none 150 0
      (by decide)).1 (by decide)
  · have h := (spec_c5_size_derivation sizeExampleState "X" 200 none
      (some [⟨"Content-Length", some "1234"⟩]) none 150 0 (by decide)).2
      ⟨"Content-Length", some "1234"⟩ (by decide)
    rw [h]
    decide

/-- C5 counterexample: a non-numeric content-length value "abc" makes
the code store size = parseInt("abc") = NaN; the size field is set (to
NaN), not left absent as the claim states. -/
theorem spec_c5_size_derivation_counterexample :
    (((onCompleted sizeExampleState "X" 200 none
        (some [⟨"Content-Length", some "abc"⟩]) none 150).webRequests[0]?).map
      (fun r => r.size) = some (some JSNum.nan))
    ∧ ¬ (((onCompleted sizeExampleState "X" 200 none
        (some [⟨"Content-Length", some "abc"⟩]) none 150).webRequests[0]?).map
      (fun r => r.size) = some none) :=
  ⟨by decide, by decide⟩

/-! Completion-field consistency (C6). -/

/-- The field grouping that actually holds on every reachable record:
responseHeaders and fromCache are set together (exactly by completion
events) or both absent, and size is only ever set alongside them.
duration is deliberately not included: the error handler sets it
alone. -/
def completionFieldsConsistent (r : RequestRecord) : Prop :=
  (r.responseHeaders.isSome ↔ r.fromCache.isSome) ∧ (r.size.isSome → r.responseHeaders.isSome)

theorem step_completionFields (s : LedgerState)
    (h : ∀ r ∈ s.webRequests, completionFieldsConsistent r) (e : Event) :
    ∀ r ∈ (step s e).webRequests, completionFieldsConsistent r := by
  cases e with
  | beforeRequest id url m ty ini body now =>
    intro r hr
    rw [step, onBeforeRequest_webRequests] at hr
    rcases List.mem_cons.mp (List.take_subset 500 _ hr) with hr | hr
    · subst hr
      simp [completionFieldsConsistent, mkRequest]
    · exact h r hr
  | beforeSendHeaders id hs =>
    intro r hr
    simp only [step, onBeforeSendHeaders] at hr
    rcases updateFirst_mem _ _ _ r hr with hr | ⟨r0, hr0, -, rfl⟩
    · exact h r hr
    · simpa [completionFieldsConsistent] using h r0 hr0
  | completed id code line hs fc now =>
    intro r hr
    simp only [step, onCompleted] at hr
    rcases updateFirst_mem _ _ _ r hr with hr | ⟨r0, hr0, -, rfl⟩
    · exact h r hr
    · simp [completionFieldsConsistent]
  | errorOccurred id e now =>
    intro r hr
    simp only [step, onErrorOccurred] at hr
    rcases updateFirst_mem _ _ _ r hr with hr | ⟨r0, hr0, -, rfl⟩
    · exact h r hr
    · simpa [completionFieldsConsistent] using h r0 hr0
  | clear =>
    intro r hr
    simp [step, clearWebRequests] at hr

theorem runFrom_completionFields :
    ∀ (evs : List Event) (s : LedgerState),
      (∀ r ∈ s.webRequests, completionFieldsConsistent r) →
      ∀ r ∈ (runFrom s evs).webRequests, completionFieldsConsistent r
  | [], _, h => h
  | e :: evs, s, h =>
    runFrom_completionFields evs (step s e) (step_completionFields s h e)

/-- C6 (amended): in every reachable ledger state, every record has
responseHeaders and fromCache either both set (which only a completion
event does) or both absent, and size set only when they are. The
original all-four grouping including duration fails: the error handler
sets duration alone, and completion can leave duration or size absent
(see the counterexample). -/
theorem spec_c6_completion_fields (evs : List Event) :
    ∀ r ∈ (run evs).webRequests, completionFieldsConsistent r :=
  runFrom_completionFields evs initialState (by simp [initialState])

/-- C6 witness: the freshly started record of a one-event run
satisfies the grouping (all three fields absent). -/
theorem spec_c6_completion_fields_witness :
    completionFieldsConsistent (mkRequest "X" "u" "GET" 5 "xhr" none none) :=
  spec_c6_completion_fields [Event.beforeRequest "X" "u" "GET" "xhr" none none 5]
    (mkRequest "X" "u" "GET" 5 "xhr" none none) (by decide)

/-- C6 counterexample: after a start at t = 100 and an error at t =
150, the record has duration set (to 50) while responseHeaders, size
and fromCache are all absent — the four fields are not "set together
by a completion event", since the error handler sets duration alone. -/
theorem spec_c6_completion_fields_counterexample :
    ∃ r ∈ (run [Event.beforeRequest "X" "u" "GET" "xhr" none none 100,
                Event.errorOccurred "X" "e" 150]).webRequests,
      r.duration.isSome = true ∧ r.responseHeaders = none ∧ r.size = none
        ∧ r.fromCache = none := by decide

/-! Mutual exclusivity of error and status (C7). -/

/-- Scans a trace keeping the set of ids that have received an error
event so far; false as soon as a completion event arrives for an id
already errored. -/
def okTraceAux (erroredIds : List String) : List Event → Bool
  | [] => true
  | ev :: evs =>
    match ev with
    | .errorOccurred id _ _ => okTraceAux (id :: erroredIds) evs
    | .completed id _ _ _ _ _ => !(erroredIds.contains id) && okTraceAux erroredIds evs
    | _ => okTraceAux erroredIds evs

/-- A trace in which no completion event follows an error event for
the same id (the at-most-one-terminal-event contract of the platform
implies this for any id that is not reused). -/
def okTrace (evs : List Event) : Bool := okTraceAux [] evs

theorem runFrom_error_status :
    ∀ (evs : List Event) (E : List String) (s : LedgerState),
      okTraceAux E evs = true →
      (∀ r ∈ s.webRequests, r.error.isSome = true → r.status = some 0 ∧ r.id ∈ E) →
      ∀ r ∈ (runFrom s evs).webRequests, r.error.isSome = true → r.status = some 0
  | [], E, s, _, hinv => fun r hr he => (hinv r hr he).1
  | ev :: evs, E, s, hok, hinv => by
    cases ev with
    | beforeRequest id url m ty ini body now =>
      refine runFrom_error_status evs E (step s (.beforeRequest id url m ty ini body now))
        (by simpa [okTraceAux] using hok) ?_
      intro r hr he
      rw [step, onBeforeRequest_webRequests] at hr
      rcases List.mem_cons.mp (List.take_subset 500 _ hr) with hr | hr
      · subst hr
        simp [mkRequest] at he
      · exact hinv r hr he
    | beforeSendHeaders id hs =>
      refine runFrom_error_status evs E (step s (.beforeSendHeaders id hs))
        (by simpa [okTraceAux] using hok) ?_
      intro r hr he
      simp only [step, onBeforeSendHeaders] at hr
      rcases updateFirst_mem _ _ _ r hr with hr | ⟨r0, hr0, -, rfl⟩
      · exact hinv r hr he
      · simp only at he
        exact hinv r0 hr0 (by simpa using he)
    | completed id code line hs fc now =>
      simp only [okTraceAux, Bool.and_eq_true, Bool.not_eq_true'] at hok
      obtain ⟨hnotin, hok⟩ := hok
      refine runFrom_error_status evs E (step s (.completed id code line hs fc now)) hok ?_
      intro r hr he
      simp only [step, onCompleted] at hr
      rcases updateFirst_mem _ _ _ r hr with hr | ⟨r0, hr0, hpr0, rfl⟩
      · exact hinv r hr he
      · exfalso
        simp only at he
        obtain ⟨-, hmem⟩ := hinv r0 hr0 (by simpa using he)
        have : r0.id = id := by simpa using hpr0
        rw [this] at hmem
        simp at hnotin
        exact hnotin hmem
    | errorOccurred id e now =>
      refine runFrom_error_status evs (id :: E) (step s (.errorOccurred id e now))
        (by simpa [okTraceAux] using hok) ?_
      intro r hr he
      simp only [step, onErrorOccurred] at hr
      rcases updateFirst_mem _ _ _ r hr with hr | ⟨r0, hr0, hpr0, rfl⟩
      · obtain ⟨h1, h2⟩ := hinv r hr he
        exact ⟨h1, List.mem_cons_of_mem id h2⟩
      · refine ⟨by simp, ?_⟩
        have : r0.id = id := by simpa using hpr0
        simp [this]
    | clear =>
      refine runFrom_error_status evs E (step s .clear)
        (by simpa [okTraceAux] using hok) ?_
      intro r hr
      simp [step, clearWebRequests] at hr

/-- C7 (amended): on every trace in which no completion event for an
id is processed after an error event for the same id, no reachable
record has both error set and status ≥ 100 (every errored record has
status = 0). The restriction is forced by the code: onCompleted
overwrites status without clearing the error field, so an
errored-then-completed id yields a record with both (see the
counterexample). -/
theorem spec_c7_error_status_exclusive (evs : List Event) (hok : okTrace evs = true) :
    ∀ r ∈ (run evs).webRequests,
      ¬ (r.error.isSome = true ∧ ∃ n : Int, r.status = some n ∧ 100 ≤ n) := by
  rintro r hr ⟨herr, n, hst, hn⟩
  have h0 : r.status = some 0 :=
    runFrom_error_status evs [] initialState hok (by simp [initialState]) r hr herr
  rw [h0] at hst
  obtain rfl : (0 : Int) = n := Option.some.inj hst
  exact absurd hn (by norm_num)

/-- The record produced by a start at t = 100 followed by an error at
t = 150 for id X. -/
def erroredExampleRecord : RequestRecord :=
  { id := "X", url := "u", method := "GET", status := some 0, timestamp := 100,
    type := "xhr", duration := some 50, statusText := some "Error", error := some "e" }

/-- C7 witness: a start followed by an error for the same id is an
admissible trace, and the resulting errored record (status 0, error
set) has no status ≥ 100 alongside its error field. -/
theorem spec_c7_error_status_exclusive_witness :
    okTrace [Event.beforeRequest "X" "u" "GET" "xhr" none none 100,
             Event.errorOccurred "X" "e" 150] = true
    ∧ ¬ (erroredExampleRecord.error.isSome = true
         ∧ ∃ n : Int, erroredExampleRecord.status = some n ∧ 100 ≤ n) :=
  ⟨by decide,
    spec_c7_error_status_exclusive
      [Event.beforeRequest "X" "u" "GET" "xhr" none none 100,
       Event.errorOccurred "X" "e" 150] (by decide)
      erroredExampleRecord (by decide)⟩

/-- C7 counterexample: the claim quantified over all event sequences
fails. After start, error, and then a completion with status 200 for
the same id, the record has error = "e" still set (onCompleted never
clears it) together with status = 200 ≥ 100. -/
theorem spec_c7_error_status_exclusive_counterexample :
    ∃ r ∈ (run [Event.beforeRequest "X" "u" "GET" "xhr" none none 100,
                Event.errorOccurred "X" "e" 150,
                Event.completed "X" 200 none none none 160]).webRequests,
      r.error.isSome = true ∧ r.status = some 200 ∧ (100 : Int) ≤ 200 := by decide

/-! Duplicate ids (C9). -/

/-- C9: a second start event with an id already in the ledger inserts
a second record with that id (no deduplication: the new record sits at
the head and the count of records bearing the id grows by one), and
each of the three update handlers touches exactly one record, the one
at the first index bearing the id. Since the ledger is newest-first
(C2), the first index is the most recently inserted record with that
id; every other index is left unchanged. -/
theorem spec_c9_duplicate_ids (s : LedgerState) (X url method type : String)
    (initiatorUrl : Option String) (body : Option RequestBodyInfo) (now : Int)
    (requestHeaders : Option (List Header)) (statusCode : Int) (statusLine : Option String)
    (responseHeaders : Option (List Header)) (fromCache : Option Bool) (errMsg : String)
    (i : Nat) (hlen : s.webRequests.length < 500)
    (hi : firstIdx (fun r => r.id == X) s.webRequests = some i) :
    ((onBeforeRequest s X url method type initiatorUrl body now).webRequests
        = mkRequest X url method now type initiatorUrl body :: s.webRequests)
    ∧ ((onBeforeRequest s X url method type initiatorUrl body now).webRequests.countP
          (fun r => r.id == X)
        = s.webRequests.countP (fun r => r.id == X) + 1)
    ∧ (∀ j, j < i → ∀ r, s.webRequests[j]? = some r → ¬ r.id = X)
    ∧ (∃ r, s.webRequests[i]? = some r ∧ r.id = X)
    ∧ (∀ j, j ≠ i →
        (onBeforeSendHeaders s X requestHeaders).webRequests[j]? = s.webRequests[j]?
        ∧ (onCompleted s X statusCode statusLine responseHeaders fromCache now).webRequests[j]?
            = s.webRequests[j]?
        ∧ (onErrorOccurred s X errMsg now).webRequests[j]? = s.webRequests[j]?)
    ∧ (((onBeforeSendHeaders s X requestHeaders).webRequests[i]?).map
        (fun r => r.requestHeaders) = some (some (headersToObj (requestHeaders.getD []))))
    ∧ (((onCompleted s X statusCode statusLine responseHeaders fromCache now).webRequests[i]?).map
        (fun r => r.status) = some (some statusCode))
    ∧ (((onErrorOccurred s X errMsg now).webRequests[i]?).map (fun r => r.error)
        = some (some errMsg)) := by
  have hcons : (onBeforeRequest s X url method type initiatorUrl body now).webRequests
      = mkRequest X url method now type initiatorUrl body :: s.webRequests := by
    rw [onBeforeRequest_webRequests]
    exact List.take_of_length_le (by simp only [List.length_cons]; omega)
  obtain ⟨⟨r, hr, hpr⟩, hleast⟩ := firstIdx_spec (fun r => r.id == X) s.webRequests i hi
  refine ⟨hcons, ?_, ?_, ⟨r, hr, by simpa using hpr⟩, ?_, ?_, ?_, ?_⟩
  · rw [hcons, List.countP_cons_of_pos _ _ (by simp [mkRequest])]
  · intro j hj r1 hr1
    simpa using hleast j hj r1 hr1
  · intro j hj
    refine ⟨?_, ?_, ?_⟩
    · simp only [onBeforeSendHeaders]
      exact (updateFirst_getElem? _ _ s.webRequests i hi).2 j hj
    · simp only [onCompleted]
      exact (updateFirst_getElem? _ _ s.webRequests i hi).2 j hj
    · simp only [onErrorOccurred]
      exact (updateFirst_getElem? _ _ s.webRequests i hi).2 j hj
  · simp only [onBeforeSendHeaders]
    rw [(updateFirst_getElem? _ _ s.webRequests i hi).1, hr]
    simp
  · simp only [onCompleted]
    rw [(updateFirst_getElem? _ _ s.webRequests i hi).1, hr]
    simp
  · simp only [onErrorOccurred]
    rw [(updateFirst_getElem? _ _ s.webRequests i hi).1, hr]
    simp

/-- A two-record ledger obtained by two start events that reuse the
same id X before any terminal event. -/
def dupExampleState : LedgerState :=
  onBeforeRequest (onBeforeRequest initialState "X" "u1" "GET" "xhr" none none 1)
    "X" "u2" "GET" "xhr" none none 2

/-- C9 witness: with two live records for id X, a third start bumps
the count of X-records from 2 to 3, while an error event for X updates
only index 0 (the most recent X) and leaves index 1 untouched. -/
theorem spec_c9_duplicate_ids_witness :
    ((onBeforeRequest dupExampleState "X" "u3" "GET" "xhr" none none 3).webRequests.countP
        (fun r => r.id == "X")
      = dupExampleState.webRequests.countP (fun r => r.id == "X") + 1)
    ∧ ((onErrorOccurred dupExampleState "X" "e" 3).webRequests[1]?
        = dupExampleState.webRequests[1]?)
    ∧ (((onErrorOccurred dupExampleState "X" "e" 3).webRequests[0]?).map (fun r => r.error)
        = some (some "e")) := by
  have h := spec_c9_duplicate_ids dupExampleState "X" "u3" "GET" "xhr" none none 3
    none 200 none none none "e" 0 (by decide) (by decide)
  exact ⟨h.2.1, (h.2.2.2.2.1 1 (by decide)).2.2, h.2.2.2.2.2.2.2⟩

/-! Request body handling (C10). -/

/-- C10: the record inserted by a start event never stores requestBody
as the empty string: when the body payload is absent, or its decoded
text is empty, the field is left absent (`requestBody || undefined`). -/
theorem spec_c10_request_body (s : LedgerState) (X url method type : String)
    (initiatorUrl : Option String) (body : Option RequestBodyInfo) (now : Int) :
    ∃ rec, (onBeforeRequest s X url method type initiatorUrl body now).webRequests.head?
        = some rec
      ∧ ¬ rec.requestBody = some ""
      ∧ (body = none → rec.requestBody = none)
      ∧ (decodeRequestBody body = "" → rec.requestBody = none) := by
  refine ⟨mkRequest X url method now type initiatorUrl body, ?_, ?_, ?_, ?_⟩
  · rw [onBeforeRequest_webRequests]
    exact head?_take_cons 500 _ _ (by norm_num)
  · by_cases hb : decodeRequestBody body = ""
    · simp [mkRequest, hb]
    · simp [mkRequest, hb]
  · intro hb
    subst hb
    simp [mkRequest, decodeRequestBody]
  · intro hb
    simp [mkRequest, hb]

/-- C10 witness: a start event with no body payload stores a record
whose requestBody is absent, not the empty string. -/
theorem spec_c10_request_body_witness :
    ∃ rec, (onBeforeRequest initialState "X" "u" "GET" "xhr" none none 5).webRequests.head?
        = some rec
      ∧ ¬ rec.requestBody = some ""
      ∧ ((none : Option RequestBodyInfo) = none → rec.requestBody = none)
      ∧ (decodeRequestBody none = "" → rec.requestBody = none) :=
  spec_c10_request_body initialState "X" "u" "GET" "xhr" none none 5
